import Mathlib

/-!
Shallow embedding of the adaptive questioning engine of the
`Python_ProgramacionAvanzada` repository (files `src/ml/predictor.py` and
`src/ml/game_session.py`), together with proofs of the specified properties.

Python values stored under an entity's `caracteristicas` mapping are JSON
values: strings, integers, floats, booleans and null.  Floats are carried by
their `str()` representation, since the engine only ever stringifies them.
-/

/-- A JSON-like feature value, as stored in `personajes.json`. -/
inductive Valor where
  | vstr (s : String)
  | vint (n : Int)
  | vfloat (r : String)
  | vbool (b : Bool)
  | vnull
deriving Repr, DecidableEq

/-- Python `isinstance(valor, (int, float))`.  Note that `bool` is a subclass
of `int` in Python, so booleans match this guard as well. -/
def Valor.esNumerico : Valor → Bool
  | .vint _ => true
  | .vfloat _ => true
  | .vbool _ => true
  | _ => false

/-- Python `isinstance(valor, (int, float))` restricted to genuine numbers
(used to phrase claims that speak only of int/float values). -/
def Valor.esIntFloat : Valor → Bool
  | .vint _ => true
  | .vfloat _ => true
  | _ => false

/-- Python `str(valor)`. -/
def Valor.str : Valor → String
  | .vstr s => s
  | .vint n => toString n
  | .vfloat r => r
  | .vbool true => "True"
  | .vbool false => "False"
  | .vnull => "None"

/-- Python `s.lower().strip()`: lowercase every character, then drop leading
and trailing whitespace (written over the character list so that it reduces
inside the kernel). -/
def normaliza (s : String) : String :=
  ⟨(((s.data.map Char.toLower).dropWhile Char.isWhitespace).reverse.dropWhile
      Char.isWhitespace).reverse⟩

/-- Lexicographic comparison of strings by code point, as Python `sorted`
compares `str` values. -/
def lexLe : List Char → List Char → Bool
  | [], _ => true
  | _ :: _, [] => false
  | a :: as, b :: bs =>
    if a = b then lexLe as bs else decide (a < b)

/-- Insert one string into a lexicographically sorted list. -/
def insertar (x : String) : List String → List String
  | [] => [x]
  | y :: ys => if lexLe x.data y.data then x :: y :: ys else y :: insertar x ys

/-- Python `sorted` on a list of strings (insertion sort by `lexLe`). -/
def ordenar : List String → List String
  | [] => []
  | x :: xs => insertar x (ordenar xs)

/-- An entity of the catalog (`personajes.json` entry): a name plus an
insertion-ordered feature mapping (Python dict). -/
structure Personaje where
  nombre : String
  caracteristicas : List (String × Valor)
deriving Repr, DecidableEq

/-- Python `personaje.get('caracteristicas', {}).get(caracteristica)`: the
first binding for the key, with an explicit JSON null collapsing to `None`
exactly as Python's `is None` test sees it. -/
def Personaje.getValor (p : Personaje) (car : String) : Option Valor :=
  match p.caracteristicas.lookup car with
  | some Valor.vnull => none
  | o => o

/-- Whether an entity has the (already normalized) value `v` for feature
`car`: the normalized stringified stored value equals `v`; a missing feature
or a stored null counts as not having the value. -/
def tiene_valor (p : Personaje) (car v : String) : Bool :=
  match p.getValor car with
  | none => false
  | some val => normaliza val.str == v

/-- Loop body of `PersonajePredictor.filtrar_personajes_binario`
(predictor.py lines 336-356): iterate over the candidates, handling a
missing/None value first, otherwise comparing the normalized stringified
value with the normalized target. -/
def filtrarLoop (car v : String) (resp : Bool) : List Personaje → List Personaje
  | [] => []
  | p :: rest =>
    match p.getValor car with
    | none =>
      -- missing feature: included only when the answer was "no"
      if resp then filtrarLoop car v resp rest
      else p :: filtrarLoop car v resp rest
    | some val =>
      if (normaliza val.str == v) == resp then p :: filtrarLoop car v resp rest
      else filtrarLoop car v resp rest

/-- `PersonajePredictor.filtrar_personajes_binario` (predictor.py 310-358):
normalizes the asked value once, then runs the filtering loop. -/
def filtrar_personajes_binario (c : List Personaje) (car valor : String)
    (resp : Bool) : List Personaje :=
  filtrarLoop car (normaliza valor) resp c

/-- Inner step of `_extraer_caracteristicas`: add one normalized value to the
per-feature value collection, creating the feature entry on first sight
(Python dict insertion order, set-like value collection). -/
def agregar_valor : List (String × List String) → String → String →
    List (String × List String)
  | [], clave, v => [(clave, [v])]
  | (k, vs) :: rest, clave, v =>
    if k = clave then (k, if v ∈ vs then vs else vs ++ [v]) :: rest
    else (k, vs) :: agregar_valor rest clave v

/-- `PersonajePredictor._extraer_caracteristicas` (predictor.py 34-54): walk
every entity and every feature entry, skip values matching
`isinstance(valor, (int, float))`, and record the normalized stringified
value under the feature. -/
def extraer_caracteristicas (ps : List Personaje) : List (String × List String) :=
  ps.foldl
    (fun cat p =>
      p.caracteristicas.foldl
        (fun cat kv =>
          if kv.2.esNumerico then cat
          else agregar_valor cat kv.1 (normaliza kv.2.str))
        cat)
    []

/-- `PersonajePredictor.obtener_valores_posibles` (predictor.py 360-386):
the sorted distinct normalized values the given candidates exhibit for the
feature, skipping `None` and numeric values. -/
def obtener_valores_posibles (car : String) (c : List Personaje) : List String :=
  ordenar ((c.filterMap (fun p =>
      match p.getValor car with
      | none => none
      | some val => if val.esNumerico then none else some (normaliza val.str))).dedup)

/-- `PersonajePredictor.hacer_prediccion` (predictor.py 388-409): `None` on an
empty candidate list, the sole candidate when one remains, and the first
candidate otherwise. -/
def hacer_prediccion (c : List Personaje) : Option Personaje :=
  if c.isEmpty then none
  else if c.length = 1 then c.head?
  else c.head?

/-- The predictor state: the loaded entity collection.  The derived feature
catalog `caracteristicas_disponibles` is recomputed by
`extraer_caracteristicas` (the Python object stores it, but it is always the
result of that derivation over the current `personajes`). -/
structure PersonajePredictor where
  personajes : List Personaje
deriving Repr, DecidableEq

/-- The derived catalog field `caracteristicas_disponibles`. -/
def PersonajePredictor.caracteristicas_disponibles (P : PersonajePredictor) :
    List (String × List String) :=
  extraer_caracteristicas P.personajes

/-- `PersonajePredictor.obtener_confianza` (predictor.py 411-434), with exact
rational arithmetic in place of Python floats. -/
def obtener_confianza (P : PersonajePredictor) (c : List Personaje) : ℚ :=
  if c.isEmpty then 0
  else if c.length = 1 then 1
  else 1 - (c.length : ℚ) / (P.personajes.length : ℚ)

/-- The multiplicity of a name among the candidates, as counted by
`Counter(p['nombre'] for p in personajes_candidatos)`. -/
def cuenta (c : List Personaje) (nm : String) : Nat :=
  (c.map Personaje.nombre).count nm

/-- The distinct names of the candidates (the keys of the `Counter`). -/
def nombresDistintos (c : List Personaje) : List String :=
  (c.map Personaje.nombre).dedup

/-- `PersonajePredictor.calcular_entropia` (predictor.py 68-90): Shannon
entropy, base 2, of the name distribution of the candidates; 0 on the empty
list.  The `Counter` only holds positive counts, so the `if count > 0` guard
of the Python loop is always taken. -/
noncomputable def calcular_entropia (c : List Personaje) : ℝ :=
  if c.isEmpty then 0
  else
    ((nombresDistintos c).map (fun nm =>
      -((cuenta c nm : ℝ) / (c.length : ℝ)) *
        Real.logb 2 ((cuenta c nm : ℝ) / (c.length : ℝ)))).sum

/-- `PersonajePredictor.calcular_ganancia_binaria` (predictor.py 179-231):
information gain of the binary question (car, valor).  The Python loop that
distributes the candidates over `grupo_si`/`grupo_no` is the ordered
partition of the list by `tiene_valor` (a `None`/missing value lands in
`grupo_no`), and each group contributes its weighted entropy only when
non-empty. -/
noncomputable def calcular_ganancia_binaria (c : List Personaje)
    (car valor : String) : ℝ :=
  if c.isEmpty then 0
  else
    let v := normaliza valor
    let entropia_inicial := calcular_entropia c
    let grupo_si := c.filter (fun p => tiene_valor p car v)
    let grupo_no := c.filter (fun p => !tiene_valor p car v)
    let total : ℝ := (c.length : ℝ)
    let pond_si :=
      if grupo_si.isEmpty then 0
      else ((grupo_si.length : ℝ) / total) * calcular_entropia grupo_si
    let pond_no :=
      if grupo_no.isEmpty then 0
      else ((grupo_no.length : ℝ) / total) * calcular_entropia grupo_no
    entropia_inicial - (pond_si + pond_no)

/-- The (feature, value) pairs enumerated by
`seleccionar_mejor_pregunta_binaria`: catalog features in insertion order,
and for each the sorted values the current candidates exhibit. -/
def paresCandidatos (P : PersonajePredictor) (c : List Personaje) :
    List (String × String) :=
  ((P.caracteristicas_disponibles.map Prod.fst).map
    (fun f => (obtener_valores_posibles f c).map (fun v => (f, v)))).flatten

/-- One iteration of the selection loop of
`seleccionar_mejor_pregunta_binaria` (predictor.py 259-272): skip already
asked pairs, otherwise keep the pair whenever its gain strictly exceeds the
best gain so far (initially -1.0). -/
noncomputable def pasoPregunta (c : List Personaje)
    (asked : Finset (String × String))
    (acc : Option (String × String) × ℝ) (pq : String × String) :
    Option (String × String) × ℝ :=
  if pq ∈ asked then acc
  else if acc.2 < calcular_ganancia_binaria c pq.1 pq.2 then
    (some pq, calcular_ganancia_binaria c pq.1 pq.2)
  else acc

/-- `PersonajePredictor.seleccionar_mejor_pregunta_binaria`
(predictor.py 233-274). -/
noncomputable def seleccionar_mejor_pregunta_binaria (P : PersonajePredictor)
    (c : List Personaje) (asked : Finset (String × String)) :
    Option (String × String) :=
  if c.isEmpty then none
  else ((paresCandidatos P c).foldl (pasoPregunta c asked) (none, -1)).1

/-- The session state (`GameSession.__init__` / `reiniciar`,
game_session.py 11-31): the predictor handle, the current candidates, the
asked (feature, value) set and the guess-attempt counter. -/
structure GameSession where
  predictor : PersonajePredictor
  personajes_candidatos : List Personaje
  preguntas_realizadas : Finset (String × String)
  intentos_adivinanza : Nat

/-- `GameSession._formatear_pregunta_binaria` (game_session.py 68-82). -/
def formatear_pregunta_binaria (car valor : String) : String :=
  (car.replace "_" " ") ++ ": " ++ valor

/-- `GameSession.obtener_siguiente_pregunta` (game_session.py 33-66): `None`
with no candidates or a single candidate, otherwise the selector's pair with
its display text. -/
noncomputable def obtener_siguiente_pregunta (s : GameSession) :
    Option (String × String × String) :=
  if s.personajes_candidatos.isEmpty then none
  else if s.personajes_candidatos.length = 1 then none
  else
    match seleccionar_mejor_pregunta_binaria s.predictor
        s.personajes_candidatos s.preguntas_realizadas with
    | none => none
    | some (car, valor) => some (car, valor, formatear_pregunta_binaria car valor)

/-- `GameSession.intentar_adivinanza` (game_session.py 109-117): bump the
attempt counter and return the predictor's prediction over the current
candidates. -/
def intentar_adivinanza (s : GameSession) : Option Personaje × GameSession :=
  (hacer_prediccion s.personajes_candidatos,
   { s with intentos_adivinanza := s.intentos_adivinanza + 1 })

/-- `GameSession.obtener_confianza` (game_session.py 119-126). -/
def sesion_confianza (s : GameSession) : ℚ :=
  obtener_confianza s.predictor s.personajes_candidatos

/-- `GameSession.puede_intentar_adivinar` (game_session.py 128-159): `False`
with no candidates; otherwise true on a single candidate, on confidence at
least 0.7, or when the selector has no question left. -/
noncomputable def puede_intentar_adivinar (s : GameSession) : Prop :=
  if s.personajes_candidatos.isEmpty then False
  else if s.personajes_candidatos.length = 1 then True
  else if (7 / 10 : ℚ) ≤ sesion_confianza s then True
  else
    seleccionar_mejor_pregunta_binaria s.predictor s.personajes_candidatos
      s.preguntas_realizadas = none

/-! Concrete entities used by witnesses and counterexamples. -/

/-- Entity with one string-valued feature. -/
def pA : Personaje := ⟨"a", [("f", Valor.vstr "x")]⟩

/-- Entity with no features. -/
def pB : Personaje := ⟨"b", []⟩

/-- Entity whose `num` feature holds the string "5". -/
def pS : Personaje := ⟨"a", [("num", Valor.vstr "5")]⟩

/-- Entity whose `num` feature holds the integer 5. -/
def pN : Personaje := ⟨"b", [("num", Valor.vint 5)]⟩

/-- The distinct-name index set of a candidate list. -/
def nombresFinset (c : List Personaje) : Finset String :=
  (c.map Personaje.nombre).toFinset

/-- The predictor loaded with the two concrete entities. -/
def P0 : PersonajePredictor := ⟨[pA, pB]⟩

/-- Python `isinstance(valor, bool)`. -/
def Valor.esBool : Valor → Bool
  | .vbool _ => true
  | _ => false

/-- Remove from an entity every feature entry whose value satisfies `pred`. -/
def quitarValores (pred : Valor → Bool) (p : Personaje) : Personaje :=
  ⟨p.nombre, p.caracteristicas.filter (fun kv => !pred kv.2)⟩

/-- Replace a non-null value by the string Python would compare it as. -/
def stringificarValor : Valor → Valor
  | Valor.vnull => Valor.vnull
  | v => Valor.vstr v.str

/-- Replace every stored value of an entity by its stringified form. -/
def stringificar (p : Personaje) : Personaje :=
  ⟨p.nombre, p.caracteristicas.map (fun kv => (kv.1, stringificarValor kv.2))⟩

/-- The filtering loop is the ordered filter of the candidates by agreement
of `tiene_valor` with the answer. -/
theorem filtrar_eq_filter (c : List Personaje) (car v : String) (resp : Bool) :
    filtrarLoop car v resp c
      = c.filter (fun p => tiene_valor p car v == resp) := by
  induction c with
  | nil => rfl
  | cons p rest ih =>
    rw [filtrarLoop, List.filter_cons]
    cases h : p.getValor car with
    | none =>
      have ht : tiene_valor p car v = false := by rw [tiene_valor, h]
      cases resp <;> simp [ht, ih]
    | some val =>
      have ht : tiene_valor p car v = (normaliza val.str == v) := by
        rw [tiene_valor, h]
      by_cases hb : (normaliza val.str == v) = resp
      · simp [ht, hb, ih]
      · have : ((normaliza val.str == v) == resp) = false := by
          cases hv : (normaliza val.str == v) <;> cases hr : resp <;>
            simp_all
        simp [ht, this, ih]

/-- C5: `filtrar_personajes_binario` keeps a candidate exactly when its
has-value status (normalized stringified value equal to the normalized
target; missing feature or stored null counts as not having it) agrees with
the yes/no answer; the result is a sublist of the input (so it never grows),
and the keep-decision for a candidate depends only on its value at the asked
feature. -/
theorem claim_c5_filtrado_binario (c : List Personaje) (car valor : String)
    (resp : Bool) :
    filtrar_personajes_binario c car valor resp
        = c.filter (fun p => tiene_valor p car (normaliza valor) == resp)
      ∧ List.Sublist (filtrar_personajes_binario c car valor resp) c
      ∧ (∀ p q : Personaje, p.getValor car = q.getValor car →
          tiene_valor p car (normaliza valor) = tiene_valor q car (normaliza valor)) := by
  refine ⟨filtrar_eq_filter c car (normaliza valor) resp, ?_, ?_⟩
  · rw [filtrar_personajes_binario, filtrar_eq_filter]
    exact List.filter_sublist c
  · intro p q h
    rw [tiene_valor, tiene_valor, h]

/-- Witness for C5 at concrete inputs: the string-valued entity is kept by a
yes answer, the featureless entity is dropped, and two entities agreeing on
the asked feature get the same has-value status. -/
theorem claim_c5_filtrado_binario_witness :
    filtrar_personajes_binario [pS, pB] "num" "5" true
        = [pS, pB].filter (fun p => tiene_valor p "num" (normaliza "5") == true)
      ∧ List.Sublist (filtrar_personajes_binario [pS, pB] "num" "5" true) [pS, pB]
      ∧ tiene_valor pS "num" (normaliza "5")
          = tiene_valor ⟨"z", [("num", Valor.vstr "5"), ("otra", Valor.vstr "w")]⟩
              "num" (normaliza "5") := by
  obtain ⟨h1, h2, h3⟩ := claim_c5_filtrado_binario [pS, pB] "num" "5" true
  exact ⟨h1, h2, h3 pS ⟨"z", [("num", Valor.vstr "5"), ("otra", Valor.vstr "w")]⟩ rfl⟩

/-- C8: re-applying the same binary filter with the same feature, value and
answer is idempotent. -/
theorem claim_c8_filtro_idempotente (c : List Personaje) (car valor : String)
    (resp : Bool) :
    filtrar_personajes_binario
        (filtrar_personajes_binario c car valor resp) car valor resp
      = filtrar_personajes_binario c car valor resp := by
  rw [filtrar_personajes_binario, filtrar_personajes_binario,
    filtrar_eq_filter, filtrar_eq_filter, List.filter_filter]
  simp

/-- C7: `intentar_adivinanza` increments the attempt counter by exactly one,
and the prediction it returns is the head of the candidate list — the first
candidate whenever at least one remains (so also the sole candidate when one
remains) and nothing when the list is empty. -/
theorem claim_c7_intentar_adivinanza (s : GameSession) :
    (intentar_adivinanza s).2.intentos_adivinanza = s.intentos_adivinanza + 1
      ∧ (intentar_adivinanza s).1 = s.personajes_candidatos.head? := by
  refine ⟨rfl, ?_⟩
  cases h : s.personajes_candidatos with
  | nil => simp [intentar_adivinanza, hacer_prediccion, h]
  | cons p rest => simp [intentar_adivinanza, hacer_prediccion, h]

/-- C4: the confidence is exactly 0 on the empty candidate list, exactly 1 on
a singleton, and otherwise one minus the ratio of remaining candidates over
the size of the predictor's full entity collection. -/
theorem claim_c4_confianza (P : PersonajePredictor) (c : List Personaje) :
    (c = [] → obtener_confianza P c = 0)
      ∧ (c.length = 1 → obtener_confianza P c = 1)
      ∧ (2 ≤ c.length →
          obtener_confianza P c
            = 1 - (c.length : ℚ) / (P.personajes.length : ℚ)) := by
  refine ⟨?_, ?_, ?_⟩
  · intro h; simp [obtener_confianza, h]
  · intro h
    have hne : c.isEmpty = false := by
      cases c with
      | nil => simp at h
      | cons a t => rfl
    simp [obtener_confianza, hne, h]
  · intro h
    have hne : c.isEmpty = false := by
      cases c with
      | nil => simp at h
      | cons a t => rfl
    have hlen : c.length ≠ 1 := by omega
    simp [obtener_confianza, hne, hlen]

/-- Witness for C4 at concrete inputs: no candidate, one candidate, and two
of four candidates. -/
theorem claim_c4_confianza_witness :
    obtener_confianza ⟨[pA, pB, pS, pN]⟩ [] = 0
      ∧ obtener_confianza ⟨[pA, pB, pS, pN]⟩ [pA] = 1
      ∧ obtener_confianza ⟨[pA, pB, pS, pN]⟩ [pA, pB]
          = 1 - ([pA, pB].length : ℚ) / (([pA, pB, pS, pN] : List Personaje).length : ℚ) :=
  ⟨(claim_c4_confianza ⟨[pA, pB, pS, pN]⟩ []).1 rfl,
   (claim_c4_confianza ⟨[pA, pB, pS, pN]⟩ [pA]).2.1 rfl,
   (claim_c4_confianza ⟨[pA, pB, pS, pN]⟩ [pA, pB]).2.2 (by decide)⟩

/-- C10: with at most one candidate left, `obtener_siguiente_pregunta`
returns `None` in its first two branches, before the question selector is
ever consulted. -/
theorem claim_c10_sin_pregunta (s : GameSession)
    (h : s.personajes_candidatos.length ≤ 1) :
    obtener_siguiente_pregunta s = none := by
  cases hc : s.personajes_candidatos with
  | nil => simp [obtener_siguiente_pregunta, hc]
  | cons p rest =>
    have hr : rest = [] := by
      rw [hc] at h
      simpa using h
    simp [obtener_siguiente_pregunta, hc, hr]

/-- Witness for C10: a session holding a single candidate yields no
question, although the catalog still offers an unasked pair. -/
theorem claim_c10_sin_pregunta_witness :
    (GameSession.mk ⟨[pA, pB]⟩ [pA] ∅ 0).personajes_candidatos.length ≤ 1
      ∧ obtener_siguiente_pregunta (GameSession.mk ⟨[pA, pB]⟩ [pA] ∅ 0) = none :=
  ⟨by decide, claim_c10_sin_pregunta _ (by decide)⟩

/-- Counterexample to C1 as stated: on a session whose candidate set is
empty, `puede_intentar_adivinar` is false, although the claim says the empty
candidate set makes it true. -/
theorem claim_c1_counterexample :
    (GameSession.mk ⟨[pA, pB]⟩ [] ∅ 0).personajes_candidatos = []
      ∧ ¬ puede_intentar_adivinar (GameSession.mk ⟨[pA, pB]⟩ [] ∅ 0) := by
  refine ⟨rfl, ?_⟩
  simp [puede_intentar_adivinar]

/-- C1 (amended): `puede_intentar_adivinar` is false when the candidate set
is empty, and otherwise holds exactly when one candidate remains, or the
confidence is at least 0.7, or the selector reports no remaining unasked
question. -/
theorem claim_c1_puede_adivinar (s : GameSession) :
    puede_intentar_adivinar s ↔
      s.personajes_candidatos ≠ [] ∧
        (s.personajes_candidatos.length = 1 ∨
          (7 / 10 : ℚ) ≤ sesion_confianza s ∨
          seleccionar_mejor_pregunta_binaria s.predictor
            s.personajes_candidatos s.preguntas_realizadas = none) := by
  rw [puede_intentar_adivinar]
  by_cases h0 : s.personajes_candidatos.isEmpty
  · have : s.personajes_candidatos = [] := List.isEmpty_iff.mp h0
    simp [h0, this]
  · have hne : s.personajes_candidatos ≠ [] := by
      intro h
      exact h0 (by simp [h])
    by_cases h1 : s.personajes_candidatos.length = 1
    · simp [h0, h1, hne]
    · by_cases h2 : (7 / 10 : ℚ) ≤ sesion_confianza s
      · simp [h0, h1, h2, hne]
      · simp [h0, h1, h2, hne]

/-! Entropy groundwork for the information-gain claims. -/

/-- One entropy summand, rewritten through `Real.negMulLog`. -/
theorem neg_mul_logb_eq (x : ℝ) :
    -x * Real.logb 2 x = Real.negMulLog x / Real.log 2 := by
  rw [Real.negMulLog, Real.logb]
  ring

theorem nombresFinset_dedup (c : List Personaje) :
    (nombresDistintos c).toFinset = nombresFinset c := by
  rw [nombresDistintos, nombresFinset]
  exact List.toFinset.ext_iff.mpr (fun x => List.mem_dedup)

theorem calcular_entropia_eq_sum (c : List Personaje) (hc : ¬ c.isEmpty = true) :
    calcular_entropia c =
      (∑ nm ∈ nombresFinset c,
        Real.negMulLog ((cuenta c nm : ℝ) / (c.length : ℝ))) / Real.log 2 := by
  have hnd : (nombresDistintos c).Nodup := List.nodup_dedup _
  rw [calcular_entropia, if_neg hc, Finset.sum_div, ← nombresFinset_dedup,
    List.sum_toFinset _ hnd]
  simp only [neg_mul_logb_eq]

theorem countP_filter_partition {α : Type} (l : List α) (p q : α → Bool) :
    l.countP q
      = (l.filter p).countP q + (l.filter (fun a => !p a)).countP q := by
  induction l with
  | nil => rfl
  | cons a t ih =>
    by_cases hp : p a <;> by_cases hq : q a <;>
      simp [List.countP_cons, List.filter_cons, hp, hq, ih] <;> omega

theorem length_filter_partition {α : Type} (l : List α) (p : α → Bool) :
    l.length = (l.filter p).length + (l.filter (fun a => !p a)).length := by
  have h := countP_filter_partition l p (fun _ => true)
  simpa using h

theorem cuenta_filter_partition (c : List Personaje) (p : Personaje → Bool)
    (nm : String) :
    cuenta c nm
      = cuenta (c.filter p) nm + cuenta (c.filter (fun a => !p a)) nm := by
  rw [cuenta, cuenta, cuenta, List.count_eq_countP, List.count_eq_countP,
    List.count_eq_countP, List.countP_map, List.countP_map, List.countP_map]
  exact countP_filter_partition c p _

theorem cuenta_eq_zero_of_not_mem {c : List Personaje} {nm : String}
    (h : nm ∉ nombresFinset c) : cuenta c nm = 0 := by
  rw [cuenta, List.count_eq_zero]
  intro hmem
  exact h (List.mem_toFinset.mpr hmem)

theorem nombresFinset_filter_subset (c : List Personaje) (p : Personaje → Bool) :
    nombresFinset (c.filter p) ⊆ nombresFinset c := by
  intro x hx
  simp only [nombresFinset, List.mem_toFinset, List.mem_map] at hx ⊢
  obtain ⟨a, ha, rfl⟩ := hx
  exact ⟨a, (List.mem_filter.mp ha).1, rfl⟩

theorem entropia_grupo_sum (c : List Personaje) (p : Personaje → Bool)
    (h : ¬ (c.filter p).isEmpty = true) :
    calcular_entropia (c.filter p) =
      (∑ nm ∈ nombresFinset c,
        Real.negMulLog
          ((cuenta (c.filter p) nm : ℝ) / ((c.filter p).length : ℝ))) /
        Real.log 2 := by
  rw [calcular_entropia_eq_sum _ h]
  congr 1
  refine Finset.sum_subset (nombresFinset_filter_subset c p) ?_
  intro x _ hnx
  rw [cuenta_eq_zero_of_not_mem hnx]
  simp

theorem negMulLog_mix (a b x y : ℝ) (ha : 0 ≤ a) (hb : 0 ≤ b)
    (hab : a + b = 1) (hx : 0 ≤ x) (hy : 0 ≤ y) :
    a * Real.negMulLog x + b * Real.negMulLog y
      ≤ Real.negMulLog (a * x + b * y) := by
  have h := Real.concaveOn_negMulLog.2 (Set.mem_Ici.mpr hx)
    (Set.mem_Ici.mpr hy) ha hb hab
  simpa using h

/-- Concavity of Shannon entropy over the binary split: the weighted group
entropies never exceed the entropy of the whole candidate list. -/
theorem entropia_mezcla (c : List Personaje) (p : Personaje → Bool)
    (h1 : ¬ (c.filter p).isEmpty = true)
    (h2 : ¬ (c.filter (fun a => !p a)).isEmpty = true) :
    ((c.filter p).length : ℝ) / (c.length : ℝ) * calcular_entropia (c.filter p)
      + ((c.filter (fun a => !p a)).length : ℝ) / (c.length : ℝ)
          * calcular_entropia (c.filter (fun a => !p a))
      ≤ calcular_entropia c := by
  have hn1 : 0 < (c.filter p).length := by
    cases hl : c.filter p with
    | nil => rw [hl] at h1; simp at h1
    | cons a t => simp
  have hn2 : 0 < (c.filter (fun a => !p a)).length := by
    cases hl : c.filter (fun a => !p a) with
    | nil => rw [hl] at h2; simp at h2
    | cons a t => simp
  have hcne : ¬ c.isEmpty = true := by
    intro h
    rw [List.isEmpty_iff.mp h] at h1
    exact h1 rfl
  have hsplit := length_filter_partition c p
  have hn : 0 < c.length := by omega
  have hlog : 0 < Real.log 2 := Real.log_pos (by norm_num)
  have hn1R : (0 : ℝ) < ((c.filter p).length : ℝ) := by exact_mod_cast hn1
  have hn2R : (0 : ℝ) < ((c.filter (fun a => !p a)).length : ℝ) := by
    exact_mod_cast hn2
  have hnR : (0 : ℝ) < (c.length : ℝ) := by exact_mod_cast hn
  rw [calcular_entropia_eq_sum c hcne, entropia_grupo_sum c p h1,
    entropia_grupo_sum c (fun a => !p a) h2, ← mul_div_assoc, ← mul_div_assoc,
    div_add_div_same, div_le_div_iff_of_pos_right hlog, Finset.mul_sum,
    Finset.mul_sum, ← Finset.sum_add_distrib]
  refine Finset.sum_le_sum ?_
  intro nm _
  have hcnt := cuenta_filter_partition c p nm
  have hkey := negMulLog_mix
    (((c.filter p).length : ℝ) / (c.length : ℝ))
    (((c.filter (fun a => !p a)).length : ℝ) / (c.length : ℝ))
    ((cuenta (c.filter p) nm : ℝ) / ((c.filter p).length : ℝ))
    ((cuenta (c.filter (fun a => !p a)) nm : ℝ) /
      ((c.filter (fun a => !p a)).length : ℝ))
    (by positivity) (by positivity)
    (by
      rw [div_add_div_same, div_eq_one_iff_eq (ne_of_gt hnR)]
      exact_mod_cast hsplit.symm)
    (by positivity) (by positivity)
  have harg :
      ((c.filter p).length : ℝ) / (c.length : ℝ) *
          ((cuenta (c.filter p) nm : ℝ) / ((c.filter p).length : ℝ))
        + ((c.filter (fun a => !p a)).length : ℝ) / (c.length : ℝ) *
            ((cuenta (c.filter (fun a => !p a)) nm : ℝ) /
              ((c.filter (fun a => !p a)).length : ℝ))
        = (cuenta c nm : ℝ) / (c.length : ℝ) := by
    rw [hcnt]
    push_cast
    field_simp
    ring
  rw [harg] at hkey
  exact hkey

/-- Unfolding of the gain on a non-empty candidate list. -/
theorem ganancia_eq_of_nonempty (c : List Personaje) (car valor : String)
    (hc : ¬ c.isEmpty = true) :
    calcular_ganancia_binaria c car valor =
      calcular_entropia c -
        ((if (c.filter (fun p => tiene_valor p car (normaliza valor))).isEmpty then 0
          else ((c.filter (fun p => tiene_valor p car (normaliza valor))).length : ℝ)
              / (c.length : ℝ)
              * calcular_entropia
                  (c.filter (fun p => tiene_valor p car (normaliza valor)))) +
         (if (c.filter (fun p => !tiene_valor p car (normaliza valor))).isEmpty then 0
          else ((c.filter (fun p => !tiene_valor p car (normaliza valor))).length : ℝ)
              / (c.length : ℝ)
              * calcular_entropia
                  (c.filter (fun p => !tiene_valor p car (normaliza valor))))) := by
  rw [calcular_ganancia_binaria, if_neg hc]

/-- The gain vanishes whenever one of the two groups holds every candidate. -/
theorem ganancia_grupo_unico (c : List Personaje) (car valor : String)
    (h : (c.filter (fun p => tiene_valor p car (normaliza valor))).isEmpty = true
       ∨ (c.filter (fun p => !tiene_valor p car (normaliza valor))).isEmpty = true) :
    calcular_ganancia_binaria c car valor = 0 := by
  by_cases hc : c.isEmpty
  · rw [calcular_ganancia_binaria, if_pos hc]
  · rw [ganancia_eq_of_nonempty c car valor hc]
    have hn : c ≠ [] := by
      intro habs
      exact hc (by simp [habs])
    have hnR : ((c.length : ℝ)) ≠ 0 := by
      have : 0 < c.length := List.length_pos.mpr hn
      exact_mod_cast Nat.pos_iff_ne_zero.mp this
    rcases h with h | h
    · have hall : ∀ p ∈ c, ¬ tiene_valor p car (normaliza valor) := by
        intro p hp
        have := List.isEmpty_iff.mp h
        intro ht
        have : p ∈ c.filter (fun q => tiene_valor q car (normaliza valor)) :=
          List.mem_filter.mpr ⟨hp, ht⟩
        simp_all
      have hno : c.filter (fun p => !tiene_valor p car (normaliza valor)) = c :=
        List.filter_eq_self.mpr (fun a ha => by simp [hall a ha])
      have hnoE : ¬ (c.filter (fun p => !tiene_valor p car (normaliza valor))).isEmpty = true := by
        rw [hno]
        exact hc
      rw [if_pos h, if_neg hnoE, hno, div_self hnR]
      ring
    · have hall : ∀ p ∈ c, tiene_valor p car (normaliza valor) := by
        intro p hp
        have hnil := List.isEmpty_iff.mp h
        by_contra ht
        have : p ∈ c.filter (fun q => !tiene_valor q car (normaliza valor)) :=
          List.mem_filter.mpr ⟨hp, by simp [Bool.eq_false_iff.mpr ht]⟩
        simp_all
      have hsi : c.filter (fun p => tiene_valor p car (normaliza valor)) = c :=
        List.filter_eq_self.mpr hall
      have hsiE : ¬ (c.filter (fun p => tiene_valor p car (normaliza valor))).isEmpty = true := by
        rw [hsi]
        exact hc
      rw [if_pos h, if_neg hsiE, hsi, div_self hnR]
      ring

/-- The binary information gain is never negative. -/
theorem ganancia_nonneg (c : List Personaje) (car valor : String) :
    0 ≤ calcular_ganancia_binaria c car valor := by
  by_cases hc : c.isEmpty
  · rw [calcular_ganancia_binaria, if_pos hc]
  · by_cases h1 : (c.filter (fun p => tiene_valor p car (normaliza valor))).isEmpty
    · rw [ganancia_grupo_unico c car valor (Or.inl h1)]
    · by_cases h2 : (c.filter (fun p => !tiene_valor p car (normaliza valor))).isEmpty
      · rw [ganancia_grupo_unico c car valor (Or.inr h2)]
      · rw [ganancia_eq_of_nonempty c car valor hc, if_neg h1, if_neg h2]
        have hm := entropia_mezcla c
          (fun p => tiene_valor p car (normaliza valor)) h1 h2
        linarith

/-- C6: the binary information gain is always non-negative; it is 0 on the
empty candidate list; and it is 0 whenever every candidate falls in the same
has/lacks group, so the split leaves the name distribution unchanged. -/
theorem claim_c6_ganancia_binaria (c : List Personaje) (car valor : String) :
    0 ≤ calcular_ganancia_binaria c car valor
      ∧ calcular_ganancia_binaria [] car valor = 0
      ∧ (((∀ p ∈ c, tiene_valor p car (normaliza valor) = true)
          ∨ (∀ p ∈ c, tiene_valor p car (normaliza valor) = false)) →
          calcular_ganancia_binaria c car valor = 0) := by
  refine ⟨ganancia_nonneg c car valor, rfl, ?_⟩
  intro h
  apply ganancia_grupo_unico
  rcases h with h | h
  · right
    have : c.filter (fun p => !tiene_valor p car (normaliza valor)) = [] := by
      rw [List.filter_eq_nil_iff]
      intro a ha
      simp [h a ha]
    simp [this]
  · left
    have : c.filter (fun p => tiene_valor p car (normaliza valor)) = [] := by
      rw [List.filter_eq_nil_iff]
      intro a ha
      simp [h a ha]
    simp [this]

/-- Witness for C6 at concrete inputs: a singleton candidate list whose only
member has the asked value, so the whole list falls in the "has" group and
the gain is zero. -/
theorem claim_c6_ganancia_binaria_witness :
    0 ≤ calcular_ganancia_binaria [pA] "f" "x"
      ∧ calcular_ganancia_binaria [] "f" "x" = 0
      ∧ calcular_ganancia_binaria [pA] "f" "x" = 0 :=
  ⟨(claim_c6_ganancia_binaria [pA] "f" "x").1,
   (claim_c6_ganancia_binaria [pA] "f" "x").2.1,
   (claim_c6_ganancia_binaria [pA] "f" "x").2.2 (Or.inl (by decide))⟩

/-! Selection-loop lemmas. -/

theorem pasoPregunta_some (c : List Personaje) (asked : Finset (String × String))
    (acc : Option (String × String) × ℝ) (pq : String × String)
    (h : acc.1 ≠ none) : (pasoPregunta c asked acc pq).1 ≠ none := by
  rw [pasoPregunta]
  split_ifs with h1 h2
  · exact h
  · simp
  · exact h

theorem foldl_pasoPregunta_some (c : List Personaje)
    (asked : Finset (String × String)) :
    ∀ (l : List (String × String)) (acc : Option (String × String) × ℝ),
      acc.1 ≠ none → ((l.foldl (pasoPregunta c asked) acc).1 ≠ none)
  | [], acc, h => h
  | a :: t, acc, h => by
    rw [List.foldl_cons]
    exact foldl_pasoPregunta_some c asked t _ (pasoPregunta_some c asked acc a h)

theorem foldl_pasoPregunta_skip (c : List Personaje)
    (asked : Finset (String × String)) :
    ∀ (l : List (String × String)) (acc : Option (String × String) × ℝ),
      (∀ pq ∈ l, pq ∈ asked) → l.foldl (pasoPregunta c asked) acc = acc
  | [], _, _ => rfl
  | a :: t, acc, h => by
    rw [List.foldl_cons, pasoPregunta, if_pos (h a (List.mem_cons_self a t))]
    exact foldl_pasoPregunta_skip c asked t acc
      (fun pq hpq => h pq (List.mem_cons_of_mem a hpq))

theorem foldl_pasoPregunta_reaches (c : List Personaje)
    (asked : Finset (String × String)) :
    ∀ (l : List (String × String)),
      (∃ pq ∈ l, pq ∉ asked) →
      ((l.foldl (pasoPregunta c asked)
          ((none : Option (String × String)), (-1 : ℝ))).1 ≠ none)
  | [], h => by
    obtain ⟨pq, hpq, _⟩ := h
    cases hpq
  | a :: t, h => by
    rw [List.foldl_cons]
    by_cases ha : a ∈ asked
    · rw [pasoPregunta, if_pos ha]
      apply foldl_pasoPregunta_reaches c asked t
      obtain ⟨pq, hpq, hna⟩ := h
      rcases List.mem_cons.mp hpq with rfl | hmem
      · exact absurd ha hna
      · exact ⟨pq, hmem, hna⟩
    · have hg : ((none : Option (String × String)), (-1 : ℝ)).2
          < calcular_ganancia_binaria c a.1 a.2 := by
        have := ganancia_nonneg c a.1 a.2
        simp only
        linarith
      rw [pasoPregunta, if_neg ha, if_pos hg]
      exact foldl_pasoPregunta_some c asked t _ (by simp)

theorem foldl_pasoPregunta_prop (c : List Personaje)
    (asked : Finset (String × String)) (P : String × String → Prop) :
    ∀ (l : List (String × String)) (acc : Option (String × String) × ℝ),
      (∀ q, acc.1 = some q → P q) →
      (∀ pq ∈ l, pq ∉ asked → P pq) →
      ∀ q, (l.foldl (pasoPregunta c asked) acc).1 = some q → P q
  | [], acc, hacc, _, q, hq => hacc q hq
  | a :: t, acc, hacc, hl, q, hq => by
    rw [List.foldl_cons] at hq
    refine foldl_pasoPregunta_prop c asked P t _ ?_
      (fun pq h hn => hl pq (List.mem_cons_of_mem a h) hn) q hq
    intro q' hq'
    rw [pasoPregunta] at hq'
    split_ifs at hq' with h1 h2
    · exact hacc q' hq'
    · have : q' = a := by
        simpa using hq'.symm
      subst this
      exact hl q' (List.mem_cons_self q' t) h1
    · exact hacc q' hq'

theorem mem_paresCandidatos (P : PersonajePredictor) (c : List Personaje)
    (pq : String × String) :
    pq ∈ paresCandidatos P c ↔
      pq.1 ∈ P.caracteristicas_disponibles.map Prod.fst ∧
        pq.2 ∈ obtener_valores_posibles pq.1 c := by
  constructor
  · intro h
    rw [paresCandidatos, List.mem_flatten] at h
    obtain ⟨s, hs, hmem⟩ := h
    obtain ⟨f, hf, rfl⟩ := List.mem_map.mp hs
    obtain ⟨v, hv, rfl⟩ := List.mem_map.mp hmem
    exact ⟨hf, hv⟩
  · rintro ⟨h1, h2⟩
    rw [paresCandidatos, List.mem_flatten]
    exact ⟨(obtener_valores_posibles pq.1 c).map (fun v => (pq.1, v)),
      List.mem_map.mpr ⟨pq.1, h1, rfl⟩, List.mem_map.mpr ⟨pq.2, h2, rfl⟩⟩

/-- A pair returned by the selector is an unasked candidate-relevant pair. -/
theorem sel_mem (P : PersonajePredictor) (c : List Personaje)
    (asked : Finset (String × String)) (q : String × String)
    (h : seleccionar_mejor_pregunta_binaria P c asked = some q) :
    q ∈ paresCandidatos P c ∧ q ∉ asked := by
  rw [seleccionar_mejor_pregunta_binaria] at h
  by_cases hc : c.isEmpty
  · rw [if_pos hc] at h
    cases h
  · rw [if_neg hc] at h
    exact foldl_pasoPregunta_prop c asked
      (fun pq => pq ∈ paresCandidatos P c ∧ pq ∉ asked)
      (paresCandidatos P c) (none, -1)
      (by rintro q' hq'; cases hq')
      (fun pq hm hn => ⟨hm, hn⟩) q h

/-- The selector returns nothing exactly when there is no candidate or every
candidate-relevant pair was already asked. -/
theorem sel_none_iff (P : PersonajePredictor) (c : List Personaje)
    (asked : Finset (String × String)) :
    seleccionar_mejor_pregunta_binaria P c asked = none ↔
      (c = [] ∨ ∀ pq ∈ paresCandidatos P c, pq ∈ asked) := by
  rw [seleccionar_mejor_pregunta_binaria]
  by_cases hc : c.isEmpty
  · simp [hc, List.isEmpty_iff.mp hc]
  · have hcne : c ≠ [] := by
      intro habs
      exact hc (by simp [habs])
    rw [if_neg hc]
    constructor
    · intro h
      right
      by_contra hex
      push_neg at hex
      obtain ⟨pq, hm, hn⟩ := hex
      exact foldl_pasoPregunta_reaches c asked (paresCandidatos P c)
        ⟨pq, hm, hn⟩ h
    · rintro (rfl | hall)
      · exact absurd rfl hcne
      · rw [foldl_pasoPregunta_skip c asked _ _ hall]

/-- C3: the binary-question selector never returns an already asked pair; it
is a pure function of the candidates and the asked-set (so two calls with
identical arguments agree); and it returns nothing exactly when the
candidate list is empty or every pair enumerated from the catalog features
and the candidate-relevant values has already been asked. -/
theorem claim_c3_seleccion (P : PersonajePredictor) (c : List Personaje)
    (asked : Finset (String × String)) :
    (∀ q, seleccionar_mejor_pregunta_binaria P c asked = some q → q ∉ asked)
      ∧ seleccionar_mejor_pregunta_binaria P c asked
          = seleccionar_mejor_pregunta_binaria P c asked
      ∧ (seleccionar_mejor_pregunta_binaria P c asked = none ↔
          (c = [] ∨ ∀ f ∈ P.caracteristicas_disponibles.map Prod.fst,
            ∀ v ∈ obtener_valores_posibles f c, (f, v) ∈ asked)) := by
  refine ⟨fun q hq => (sel_mem P c asked q hq).2, rfl, ?_⟩
  rw [sel_none_iff]
  apply or_congr Iff.rfl
  constructor
  · intro h f hf v hv
    exact h (f, v) (by rw [mem_paresCandidatos]; exact ⟨hf, hv⟩)
  · intro h pq hm
    obtain ⟨h1, h2⟩ := (mem_paresCandidatos P c pq).mp hm
    exact h pq.1 h1 pq.2 h2

theorem pares_example : paresCandidatos P0 [pA, pB] = [("f", "x")] := by decide

theorem sel_example :
    seleccionar_mejor_pregunta_binaria P0 [pA, pB] ∅ = some ("f", "x") := by
  rw [seleccionar_mejor_pregunta_binaria, if_neg (by decide), pares_example,
    List.foldl_cons, List.foldl_nil, pasoPregunta,
    if_neg (Finset.not_mem_empty _)]
  have hg : ((none : Option (String × String)), (-1 : ℝ)).2
      < calcular_ganancia_binaria [pA, pB] "f" "x" := by
    have := ganancia_nonneg [pA, pB] "f" "x"
    simp only
    linarith
  rw [if_pos hg]

/-- Witness for C3 at a concrete input: on the two-entity catalog with
nothing asked, the selector returns the pair ("f", "x"), which is not in the
empty asked-set. -/
theorem claim_c3_seleccion_witness :
    seleccionar_mejor_pregunta_binaria P0 [pA, pB] ∅ = some ("f", "x")
      ∧ ("f", "x") ∉ (∅ : Finset (String × String)) :=
  ⟨sel_example, (claim_c3_seleccion P0 [pA, pB] ∅).1 ("f", "x") sel_example⟩

/-! Invisibility of numeric and boolean values in the derived catalog. -/

theorem lookup_filter_nodup (g : String × Valor → Bool) :
    ∀ (l : List (String × Valor)), (l.map Prod.fst).Nodup → ∀ car : String,
      (l.filter g).lookup car =
        (match l.lookup car with
         | none => none
         | some v => if g (car, v) then some v else none)
  | [], _, car => rfl
  | (k, v) :: t, hl, car => by
    obtain ⟨hk, ht⟩ :=
      List.nodup_cons.mp (show (k :: t.map Prod.fst).Nodup from hl)
    by_cases hg : g (k, v)
    · rw [List.filter_cons_of_pos hg]
      by_cases hck : car = k
      · subst hck
        simp [List.lookup_cons_self, hg]
      · have hbeq : (car == k) = false := by simpa using hck
        rw [List.lookup_cons, List.lookup_cons]
        simp only [hbeq]
        exact lookup_filter_nodup g t ht car
    · rw [List.filter_cons_of_neg hg]
      by_cases hck : car = k
      · subst hck
        have hnone : t.lookup car = none := by
          rw [List.lookup_eq_none_iff]
          intro p hp
          simp only [bne_iff_ne, ne_eq]
          intro habs
          exact hk (habs ▸ List.mem_map_of_mem Prod.fst hp)
        rw [lookup_filter_nodup g t ht car, hnone, List.lookup_cons_self]
        simp [hg]
      · have hbeq : (car == k) = false := by simpa using hck
        rw [List.lookup_cons]
        simp only [hbeq]
        exact lookup_filter_nodup g t ht car

theorem getValor_quitarValores (pred : Valor → Bool)
    (hpred : ∀ v, pred v = true → v.esNumerico = true) (p : Personaje)
    (hp : (p.caracteristicas.map Prod.fst).Nodup) (car : String) :
    (quitarValores pred p).getValor car =
      (match p.getValor car with
       | none => none
       | some v => if pred v then none else some v) := by
  have hnull : pred Valor.vnull = false := by
    by_cases h : pred Valor.vnull = true
    · have := hpred Valor.vnull h
      simp [Valor.esNumerico] at this
    · simpa using h
  rw [Personaje.getValor, Personaje.getValor]
  show (match (p.caracteristicas.filter (fun kv => !pred kv.2)).lookup car with
    | some Valor.vnull => none
    | o => o) = _
  rw [lookup_filter_nodup (fun kv => !pred kv.2) p.caracteristicas hp car]
  cases hv : p.caracteristicas.lookup car with
  | none => rfl
  | some v =>
    cases v with
    | vnull => simp [hnull]
    | vstr s =>
      by_cases hpv : pred (Valor.vstr s) <;> simp [hpv]
    | vint n =>
      by_cases hpv : pred (Valor.vint n) <;> simp [hpv]
    | vfloat r =>
      by_cases hpv : pred (Valor.vfloat r) <;> simp [hpv]
    | vbool b =>
      by_cases hpv : pred (Valor.vbool b) <;> simp [hpv]

theorem filterMap_congr_mem {α β : Type} (f g : α → Option β) :
    ∀ (l : List α), (∀ a ∈ l, f a = g a) → l.filterMap f = l.filterMap g
  | [], _ => rfl
  | a :: t, h => by
    rw [List.filterMap_cons, List.filterMap_cons, h a (List.mem_cons_self a t),
      filterMap_congr_mem f g t (fun x hx => h x (List.mem_cons_of_mem a hx))]

theorem valores_quitarValores (pred : Valor → Bool)
    (hpred : ∀ v, pred v = true → v.esNumerico = true) (car : String)
    (c : List Personaje) (hc : ∀ p ∈ c, (p.caracteristicas.map Prod.fst).Nodup) :
    obtener_valores_posibles car (c.map (quitarValores pred))
      = obtener_valores_posibles car c := by
  rw [obtener_valores_posibles, obtener_valores_posibles, List.filterMap_map]
  suffices h : c.filterMap ((fun p =>
      match p.getValor car with
      | none => none
      | some val =>
        if val.esNumerico then none
        else some (normaliza val.str)) ∘ quitarValores pred)
      = c.filterMap (fun p =>
      match p.getValor car with
      | none => none
      | some val =>
        if val.esNumerico then none
        else some (normaliza val.str)) by rw [h]
  apply filterMap_congr_mem
  intro p hp
  show (match (quitarValores pred p).getValor car with
    | none => none
    | some val => if val.esNumerico then none else some (normaliza val.str)) = _
  rw [getValor_quitarValores pred hpred p (hc p hp) car]
  cases hv : p.getValor car with
  | none => rfl
  | some v =>
    by_cases hpv : pred v = true
    · simp [hpv, hpred v hpv]
    · simp [hpv]

theorem inner_foldl_quitar (pred : Valor → Bool)
    (hpred : ∀ v, pred v = true → v.esNumerico = true) :
    ∀ (l : List (String × Valor)) (cat : List (String × List String)),
      (l.filter (fun kv => !pred kv.2)).foldl
          (fun cat kv =>
            if kv.2.esNumerico then cat
            else agregar_valor cat kv.1 (normaliza kv.2.str)) cat
        = l.foldl
            (fun cat kv =>
              if kv.2.esNumerico then cat
              else agregar_valor cat kv.1 (normaliza kv.2.str)) cat
  | [], _ => rfl
  | kv :: t, cat => by
    by_cases hkv : pred kv.2 = true
    · rw [List.filter_cons_of_neg (by simp [hkv]), List.foldl_cons,
        if_pos (hpred kv.2 hkv)]
      exact inner_foldl_quitar pred hpred t cat
    · rw [List.filter_cons_of_pos (by simp [Bool.eq_false_iff.mpr hkv]),
        List.foldl_cons, List.foldl_cons]
      exact inner_foldl_quitar pred hpred t _

theorem extraer_quitarValores (pred : Valor → Bool)
    (hpred : ∀ v, pred v = true → v.esNumerico = true) (ps : List Personaje) :
    extraer_caracteristicas (ps.map (quitarValores pred))
      = extraer_caracteristicas ps := by
  rw [extraer_caracteristicas, extraer_caracteristicas, List.foldl_map]
  suffices h : ∀ (l : List Personaje) (cat : List (String × List String)),
      l.foldl (fun cat p =>
        (quitarValores pred p).caracteristicas.foldl
          (fun cat kv =>
            if kv.2.esNumerico then cat
            else agregar_valor cat kv.1 (normaliza kv.2.str)) cat) cat
        = l.foldl (fun cat p =>
            p.caracteristicas.foldl
              (fun cat kv =>
                if kv.2.esNumerico then cat
                else agregar_valor cat kv.1 (normaliza kv.2.str)) cat) cat by
    exact h ps []
  intro l
  induction l with
  | nil => intro cat; rfl
  | cons p t ih =>
    intro cat
    rw [List.foldl_cons, List.foldl_cons]
    rw [show (quitarValores pred p).caracteristicas
        = p.caracteristicas.filter (fun kv => !pred kv.2) from rfl]
    rw [inner_foldl_quitar pred hpred]
    exact ih _

/-- C9: boolean feature values match the `isinstance(valor, (int, float))`
guard (Python `bool` is a subclass of `int`), so removing every
boolean-valued entry changes neither the derived catalog nor the
possible-value enumeration, and any pair the selector returns comes from
that enumeration, so a boolean value can never be selected as a binary
question. -/
theorem claim_c9_valores_booleanos (ps c : List Personaje) (car : String)
    (asked : Finset (String × String)) :
    (∀ b : Bool, (Valor.vbool b).esNumerico = true)
      ∧ extraer_caracteristicas (ps.map (quitarValores Valor.esBool))
          = extraer_caracteristicas ps
      ∧ ((∀ p ∈ c, (p.caracteristicas.map Prod.fst).Nodup) →
          obtener_valores_posibles car (c.map (quitarValores Valor.esBool))
            = obtener_valores_posibles car c)
      ∧ (∀ (P : PersonajePredictor) (q : String × String),
          seleccionar_mejor_pregunta_binaria P c asked = some q →
            q.2 ∈ obtener_valores_posibles q.1 c) := by
  have hpred : ∀ v, Valor.esBool v = true → v.esNumerico = true := by
    intro v hv
    cases v <;> simp_all [Valor.esBool, Valor.esNumerico]
  refine ⟨fun b => rfl, extraer_quitarValores Valor.esBool hpred ps, ?_, ?_⟩
  · intro hc
    exact valores_quitarValores Valor.esBool hpred car c hc
  · intro P q hq
    exact ((mem_paresCandidatos P c q).mp (sel_mem P c asked q hq).1).2

/-- Witness for C9 at concrete inputs: dropping boolean entries leaves the
possible values of the two-entity candidate list unchanged, and the pair the
selector picks there indeed lies in the enumeration. -/
theorem claim_c9_valores_booleanos_witness :
    obtener_valores_posibles "f" ([pA, pB].map (quitarValores Valor.esBool))
        = obtener_valores_posibles "f" [pA, pB]
      ∧ ("f", "x").2 ∈ obtener_valores_posibles ("f", "x").1 [pA, pB] :=
  ⟨(claim_c9_valores_booleanos [pA] [pA, pB] "f" ∅).2.2.1 (by decide),
   (claim_c9_valores_booleanos [pA] [pA, pB] "f" ∅).2.2.2 P0 ("f", "x")
     sel_example⟩

/-! Stringified participation of numeric values in filtering and gain. -/

theorem lookup_map_valores (f : Valor → Valor) :
    ∀ (l : List (String × Valor)) (car : String),
      (l.map (fun kv => (kv.1, f kv.2))).lookup car = (l.lookup car).map f
  | [], _ => rfl
  | (k, v) :: t, car => by
    rw [List.map_cons, List.lookup_cons, List.lookup_cons]
    cases h : car == k
    · simp only
      exact lookup_map_valores f t car
    · rfl

theorem getValor_ne_null (p : Personaje) (car : String) (val : Valor)
    (h : p.getValor car = some val) : val ≠ Valor.vnull := by
  intro habs
  subst habs
  rw [Personaje.getValor] at h
  revert h
  cases p.caracteristicas.lookup car with
  | none => intro h; cases h
  | some v =>
    cases v with
    | vnull => intro h; cases h
    | vstr s => intro h; simp at h
    | vint n => intro h; simp at h
    | vfloat r => intro h; simp at h
    | vbool b => intro h; simp at h

theorem getValor_stringificar (p : Personaje) (car : String) :
    (stringificar p).getValor car = (p.getValor car).map stringificarValor := by
  rw [Personaje.getValor, Personaje.getValor]
  rw [show (stringificar p).caracteristicas
      = p.caracteristicas.map (fun kv => (kv.1, stringificarValor kv.2)) from rfl]
  rw [lookup_map_valores]
  cases p.caracteristicas.lookup car with
  | none => rfl
  | some v =>
    cases v with
    | vnull => rfl
    | vstr s => rfl
    | vint n => rfl
    | vfloat r => rfl
    | vbool b => cases b <;> rfl

theorem tiene_valor_stringificar (p : Personaje) (car v : String) :
    tiene_valor (stringificar p) car v = tiene_valor p car v := by
  rw [tiene_valor, tiene_valor, getValor_stringificar]
  cases h : p.getValor car with
  | none => rfl
  | some val =>
    have hne := getValor_ne_null p car val h
    cases val with
    | vnull => exact absurd rfl hne
    | vstr s => rfl
    | vint n => rfl
    | vfloat r => rfl
    | vbool b => cases b <;> rfl

theorem filtrar_stringificar (c : List Personaje) (car valor : String)
    (resp : Bool) :
    filtrar_personajes_binario (c.map stringificar) car valor resp
      = (filtrar_personajes_binario c car valor resp).map stringificar := by
  rw [filtrar_personajes_binario, filtrar_personajes_binario,
    filtrar_eq_filter, filtrar_eq_filter, List.filter_map]
  congr 1
  apply List.filter_congr
  intro a _
  rw [Function.comp_apply, tiene_valor_stringificar]

theorem entropia_map (f : Personaje → Personaje)
    (hf : ∀ p, (f p).nombre = p.nombre) (c : List Personaje) :
    calcular_entropia (c.map f) = calcular_entropia c := by
  have hnm : (c.map f).map Personaje.nombre = c.map Personaje.nombre := by
    rw [List.map_map]
    exact List.map_congr_left (fun a _ => hf a)
  have hie : (c.map f).isEmpty = c.isEmpty := by cases c <;> rfl
  rw [calcular_entropia, calcular_entropia, hie]
  by_cases hc : c.isEmpty
  · rw [if_pos hc, if_pos hc]
  · rw [if_neg hc, if_neg hc]
    have h1 : nombresDistintos (c.map f) = nombresDistintos c := by
      rw [nombresDistintos, nombresDistintos, hnm]
    rw [h1]
    apply congrArg List.sum
    apply List.map_congr_left
    intro nm _
    rw [cuenta, cuenta, hnm, List.length_map]

theorem ganancia_stringificar (c : List Personaje) (car valor : String) :
    calcular_ganancia_binaria (c.map stringificar) car valor
      = calcular_ganancia_binaria c car valor := by
  have hieg : ∀ l : List Personaje, (l.map stringificar).isEmpty = l.isEmpty :=
    fun l => by cases l <;> rfl
  rw [calcular_ganancia_binaria, calcular_ganancia_binaria, hieg]
  by_cases hc : c.isEmpty
  · rw [if_pos hc, if_pos hc]
  · rw [if_neg hc, if_neg hc]
    have hname : ∀ p, (stringificar p).nombre = p.nombre := fun p => rfl
    have hfsi : (c.map stringificar).filter
          (fun p => tiene_valor p car (normaliza valor))
        = (c.filter (fun p => tiene_valor p car (normaliza valor))).map
            stringificar := by
      rw [List.filter_map]
      congr 1
      apply List.filter_congr
      intro a _
      rw [Function.comp_apply, tiene_valor_stringificar]
    have hfno : (c.map stringificar).filter
          (fun p => !tiene_valor p car (normaliza valor))
        = (c.filter (fun p => !tiene_valor p car (normaliza valor))).map
            stringificar := by
      rw [List.filter_map]
      congr 1
      apply List.filter_congr
      intro a _
      rw [Function.comp_apply, tiene_valor_stringificar]
    simp only [hfsi, hfno, hieg, List.length_map,
      entropia_map stringificar hname]

/-- Counterexample to C2 as stated: the entity whose `num` feature holds the
integer 5 is kept by a yes answer to the question (num, "5") — its numeric
value is stringified and does play a role in candidate filtering — while an
entity lacking the feature is dropped by the same answer. -/
theorem claim_c2_counterexample :
    filtrar_personajes_binario [pN] "num" "5" true = [pN]
      ∧ filtrar_personajes_binario [pB] "num" "5" true = [] := by
  exact ⟨by decide, by decide⟩

/-- C2 (amended): numeric (int or float) values contribute nothing to the
derived catalog or to the possible-value enumeration — removing every
numeric-valued entry changes neither — and any selected question comes from
that enumeration, so a numeric value is never asked; in candidate filtering
and in the binary gain computation, however, a numeric value does
participate, exactly through its stringified normalized form. -/
theorem claim_c2_valores_numericos (ps c : List Personaje) (car valor : String)
    (resp : Bool) (asked : Finset (String × String)) :
    extraer_caracteristicas (ps.map (quitarValores Valor.esIntFloat))
        = extraer_caracteristicas ps
      ∧ ((∀ p ∈ c, (p.caracteristicas.map Prod.fst).Nodup) →
          obtener_valores_posibles car (c.map (quitarValores Valor.esIntFloat))
            = obtener_valores_posibles car c)
      ∧ (∀ (P : PersonajePredictor) (q : String × String),
          seleccionar_mejor_pregunta_binaria P c asked = some q →
            q.2 ∈ obtener_valores_posibles q.1 c)
      ∧ filtrar_personajes_binario (c.map stringificar) car valor resp
          = (filtrar_personajes_binario c car valor resp).map stringificar
      ∧ calcular_ganancia_binaria (c.map stringificar) car valor
          = calcular_ganancia_binaria c car valor := by
  have hpred : ∀ v, Valor.esIntFloat v = true → v.esNumerico = true := by
    intro v hv
    cases v <;> simp_all [Valor.esIntFloat, Valor.esNumerico]
  refine ⟨extraer_quitarValores Valor.esIntFloat hpred ps, ?_, ?_, ?_, ?_⟩
  · intro hc
    exact valores_quitarValores Valor.esIntFloat hpred car c hc
  · intro P q hq
    exact ((mem_paresCandidatos P c q).mp (sel_mem P c asked q hq).1).2
  · exact filtrar_stringificar c car valor resp
  · exact ganancia_stringificar c car valor

/-- Witness for the amended C2 at concrete inputs: dropping int/float entries
leaves the possible values of the two-entity candidate list unchanged, and
the pair the selector picks there lies in the enumeration. -/
theorem claim_c2_valores_numericos_witness :
    obtener_valores_posibles "f" ([pA, pB].map (quitarValores Valor.esIntFloat))
        = obtener_valores_posibles "f" [pA, pB]
      ∧ ("f", "x").2 ∈ obtener_valores_posibles ("f", "x").1 [pA, pB] :=
  ⟨(claim_c2_valores_numericos [pA] [pA, pB] "f" "x" true ∅).2.1 (by decide),
   (claim_c2_valores_numericos [pA] [pA, pB] "f" "x" true ∅).2.2.1 P0
     ("f", "x") sel_example⟩
